import Mathlib

/-!
Shallow embedding of the snowflake id codec in `src/index.ts`
(repository shayypy/snowflake), together with a model of the
ECMAScript primitives the code relies on (BigInt arithmetic and
string conversion, `Number`, `Date` normalization, `parseInt`,
string padding), and proofs about the claims of the specification.

Conventions of the embedding:
* JS strings are `List Char`.
* Arbitrary-precision BigInt values are `ℤ`; `<<` is `<<<`
  (exact, `m <<< n = m * 2 ^ n`), `>>` is the arithmetic shift `>>>`
  of `Int` (floor division by `2 ^ n`), `|` is the two's-complement
  `Int.lor`, and the JS `%` remainder on numbers is `Int.tmod`
  (truncated, sign of the dividend).
* A thrown exception is `none` of an `Option` result.
-/

/-- Characters treated as whitespace by ECMAScript string trimming
(tab, LF, VT, FF, CR, space, NBSP, and the Unicode space separators,
line terminators and BOM). -/
def jsWhitespace (c : Char) : Bool :=
  c.toNat = 9 || c.toNat = 10 || c.toNat = 11 || c.toNat = 12 || c.toNat = 13 ||
    c.toNat = 32 || c.toNat = 160 || c.toNat = 0x1680 ||
    (0x2000 ≤ c.toNat && c.toNat ≤ 0x200A) || c.toNat = 0x2028 ||
    c.toNat = 0x2029 || c.toNat = 0x202F || c.toNat = 0x205F ||
    c.toNat = 0x3000 || c.toNat = 0xFEFF

/-- Whitespace trimming on both ends, as done by StringToBigInt. -/
def trimWS (l : List Char) : List Char :=
  ((l.dropWhile jsWhitespace).reverse.dropWhile jsWhitespace).reverse

/-- Digits of `n` in base `b`, least significant first, with explicit
structural fuel so that the kernel can evaluate the function. `digitsRev`
below instantiates the fuel sufficiently. -/
def digitsRevFuel (b : ℕ) : ℕ → ℕ → List ℕ
  | 0, _ => []
  | fuel + 1, n => if n = 0 then [] else n % b :: digitsRevFuel b fuel (n / b)

/-- Digits of `n` in base `b`, least significant first (empty for 0). -/
def digitsRev (b n : ℕ) : List ℕ := digitsRevFuel b n n

/-- Character for the digit `d`: `0`-`9` then lowercase letters, as
produced by `BigInt.prototype.toString`. -/
def digitChar (d : ℕ) : Char :=
  if d < 10 then Char.ofNat (48 + d) else Char.ofNat (87 + d)

/-- Model of `BigInt.prototype.toString(b)` for a non-negative value:
most significant digit first, and `"0"` for zero. -/
def natToBase (b n : ℕ) : List Char :=
  if n = 0 then ['0'] else ((digitsRev b n).reverse).map digitChar

/-- Model of `BigInt.prototype.toString(b)`: negative values are the
representation of the absolute value behind a minus sign. -/
def intToBase (b : ℕ) (v : ℤ) : List Char :=
  if v < 0 then '-' :: natToBase b v.natAbs else natToBase b v.toNat

/-- Numeric value of a digit character (`0`-`9`, `a`-`z`, `A`-`Z`). -/
def charDigitVal (c : Char) : ℕ :=
  if 97 ≤ c.toNat then c.toNat - 87
  else if 65 ≤ c.toNat then c.toNat - 55
  else c.toNat - 48

/-- Base-`b` value of a digit string, most significant digit first. -/
def baseVal (b : ℕ) (l : List Char) : ℕ :=
  l.foldl (fun a c => b * a + charDigitVal c) 0

/-- Base-`b` value of a list of numeric digits, most significant first
(specification-side companion of `baseVal`). -/
def valNat (b : ℕ) (l : List ℕ) : ℕ :=
  l.foldl (fun a d => b * a + d) 0

/-- Whether `c` is a digit of base `b` (`b ≤ 10`: the first `b` ASCII
digits; above 10: also the matching latin letters in either case). -/
def isBaseDigit (b : ℕ) (c : Char) : Bool :=
  (48 ≤ c.toNat && c.toNat < 48 + min b 10) ||
    (decide (10 < b) &&
      ((97 ≤ c.toNat && c.toNat < 87 + b) || (65 ≤ c.toNat && c.toNat < 55 + b)))

/-- Splits an optional leading sign from a numeric literal. -/
def signSplit (l : List Char) : ℤ × List Char :=
  match l with
  | [] => (1, [])
  | c :: r => if c = '-' then (-1, r) else if c = '+' then (1, r) else (1, c :: r)

/-- Number of base-2 digits of `n` (0 for 0). -/
def bitLen (n : ℕ) : ℕ := (digitsRev 2 n).length

/-- Rounds a natural number to the nearest IEEE-754 double (53-bit
significand), ties to even — the rounding `parseInt` applies to the
mathematical value of the digits it consumed, since it returns a JS
Number. Values below `2 ^ 53` are exact. (From 2 ^ 1024 on, JS would
produce Infinity; the model keeps the rounded integer there, a region
whose extraction results no theorem below inspects.) -/
def roundToDouble (n : ℕ) : ℕ :=
  if n < 2 ^ 53 then n
  else
    let k := bitLen n - 53
    let q := n / 2 ^ k
    let r := n % 2 ^ k
    let half := 2 ^ (k - 1)
    let q' := if half < r ∨ (r = half ∧ q % 2 = 1) then q + 1 else q
    q' * 2 ^ k

/-- Model of `parseInt(s, 2)`: skip leading whitespace, take an optional
sign, then the longest prefix of binary digits; NaN (`none`) when that
prefix is empty, otherwise the signed base-2 value of the prefix rounded
to the nearest double (`parseInt` returns a Number, so digit strings
above 53 bits lose their low-order bits). -/
def parseIntBase2 (l : List Char) : Option ℤ :=
  let t := l.dropWhile jsWhitespace
  let sr := signSplit t
  let ds := sr.2.takeWhile (isBaseDigit 2)
  if ds.isEmpty then none else some (sr.1 * roundToDouble (baseVal 2 ds))

/-- The `0b`/`0o`/`0x` radix markers accepted by StringToBigInt: returns
the radix and the remaining digits when the trimmed string carries one. -/
def nonDecSplit (l : List Char) : Option (ℕ × List Char) :=
  match l with
  | c0 :: c1 :: r =>
    if c0 = '0' then
      if c1 = 'b' ∨ c1 = 'B' then some (2, r)
      else if c1 = 'o' ∨ c1 = 'O' then some (8, r)
      else if c1 = 'x' ∨ c1 = 'X' then some (16, r)
      else none
    else none
  | _ => none

/-- Digits-only unsigned literal of base `b`: defined unless empty or
containing a character that is not a base-`b` digit. -/
def baseNat? (b : ℕ) (l : List Char) : Option ℕ :=
  if l.isEmpty then none
  else if l.all (isBaseDigit b) then some (baseVal b l) else none

/-- Model of the ECMAScript StringToBigInt conversion performed by
`BigInt(string)`: trim whitespace; empty means 0; an unsigned
`0b`/`0o`/`0x` literal; otherwise an optionally signed decimal digit
string; anything else is a SyntaxError (`none`). -/
def strToBigInt (l : List Char) : Option ℤ :=
  let t := trimWS l
  if t.isEmpty then some 0
  else
    match nonDecSplit t with
    | some (b, r) => (baseNat? b r).map Int.ofNat
    | none =>
      let sr := signSplit t
      (baseNat? 10 sr.2).map fun n => sr.1 * n

/-- Largest valid ECMAScript time value in milliseconds (8.64e15). -/
def maxDateMs : ℕ := 8640000000000000

/-- Model of `new Date(t).valueOf()` for an integer argument: the
integer itself for a valid time value, NaN (`none`) beyond the Date
range, in which case a subsequent `BigInt(NaN)` throws. -/
def dateValueOf (t : ℤ) : Option ℤ :=
  if t.natAbs ≤ maxDateMs then some t else none

/-- Model of `Number(v)` for a BigInt `v`, restricted to the range where
the conversion is exact (`|v| ≤ 2 ^ 53`). Outside that range the JS
result is a rounded double that this development never needs to inspect;
`none` stands for such an unspecified rounded value, not for an error. -/
def jsNumberOfBigInt (v : ℤ) : Option ℤ :=
  if v.natAbs ≤ 2 ^ 53 then some v else none

namespace Snowflake

/-- The process-wide mutable statics of the `Snowflake` class: the
default epoch, the default shard id, and the sequence counter. -/
structure State where
  EPOCH : ℤ
  SHARD_ID : ℤ
  SEQUENCE : ℤ
deriving DecidableEq, Repr

/-- Initial values of the statics (src/index.ts lines 12, 24, 36):
`EPOCH = Date.UTC(1970, 0, 1) = 0`, `SHARD_ID = 1`, `SEQUENCE = 1`. -/
def initialState : State := { EPOCH := 0, SHARD_ID := 1, SEQUENCE := 1 }

/-- Encoded value built by `generate` (src/index.ts lines 64-66) from the
normalized timestamp `t`, shard id `s`, normalized epoch `e`, and current
sequence counter `q`:
`((t - e) << 22) | ((s % 1024) << 12) | (q % 4096)`
in exact BigInt arithmetic. -/
def generateVal (t s e q : ℤ) : ℤ :=
  Int.lor (Int.lor ((t - e) <<< (22 : ℤ)) (Int.tmod s 1024 <<< (12 : ℤ)))
    (Int.tmod q 4096)

/-- Model of `Snowflake.generate` (src/index.ts lines 48-69) with the
three arguments supplied explicitly (the claims never rely on the
defaulting of omitted arguments from `Date.now()` and the statics).
Number arguments for timestamp and epoch are normalized through
`new Date(x).valueOf()`; an out-of-range value yields NaN there, and
`BigInt(NaN)` on line 64 throws before the counter update on line 66,
leaving the statics unchanged. On success the sequence counter is
post-incremented: the encoded value uses its value from before the
call's increment. -/
def generate (timestamp shard_id epoch : ℤ) (st : State) : Option ℤ × State :=
  match dateValueOf timestamp, dateValueOf epoch with
  | some t, some e =>
    (some (generateVal t shard_id e st.SEQUENCE),
      { st with SEQUENCE := st.SEQUENCE + 1 })
  | _, _ => (none, st)

/-- `generate` followed by `result.toString()` (line 68): the returned
decimal string. -/
def generateStr (timestamp shard_id epoch : ℤ) (st : State) :
    Option (List Char) × State :=
  let r := generate timestamp shard_id epoch st
  (r.1.map (intToBase 10), r.2)

/-- Model of `Snowflake.binary` (src/index.ts lines 130-137) on the
numeric value of the snowflake: the base-2 string, left-padded with `'0'`
to 64 characters when shorter, and used as-is when not. -/
def binary (v : ℤ) : List Char :=
  let binValue := intToBase 2 v
  if binValue.length < 64 then
    List.replicate (64 - binValue.length) '0' ++ binValue
  else binValue

/-- Model of `Snowflake.extractBits` (src/index.ts lines 110-121) on the
numeric value: `parseInt(binary(v).substring(start, start + len), 2)`
when a truthy (nonzero) length is given, and
`parseInt(binary(v).substring(start), 2)` when the length is omitted or
zero (JS truthiness of the `length` argument). Since `parseInt` returns
a Number, substrings wider than 53 bits come back rounded to the nearest
double. -/
def extractBits (v : ℤ) (start : ℕ) (len : Option ℕ) : Option ℤ :=
  match len with
  | some l =>
    if l ≠ 0 then parseIntBase2 (((binary v).drop start).take l)
    else parseIntBase2 ((binary v).drop start)
  | none => parseIntBase2 ((binary v).drop start)

/-- Record produced by `parse`. Fields that the source computes through
`Number(...)` or `parseInt(...)` are `Option ℤ`: `none` models a NaN or
a value outside the exactly-representable double range. -/
structure DeconstructedSnowflake where
  timestamp : Option ℤ
  shard_id : Option ℤ
  sequence : Option ℤ
  binary : List Char
deriving DecidableEq, Repr

/-- Model of `Snowflake.parse` (src/index.ts lines 78-88): throws
(`none`) when the string is rejected by BigInt conversion, or when the
epoch in use is not a valid time value (`BigInt` of the NaN from
`new Date(epoch ?? Snowflake.EPOCH).valueOf()` throws); otherwise builds
the record: `timestamp = Number((BigInt(s) >> 22) + BigInt(epochMs))`
(arithmetic shift), `shard_id = extractBits(s, 42, 10)`,
`sequence = extractBits(s, 52)`, plus the 64-bit binary string. -/
def parse (snowflake : List Char) (epoch : Option ℤ) (st : State) :
    Option DeconstructedSnowflake :=
  match strToBigInt snowflake with
  | none => none
  | some v =>
    match dateValueOf (epoch.getD st.EPOCH) with
    | none => none
    | some e =>
      some { timestamp := jsNumberOfBigInt ((v >>> (22 : ℕ)) + e)
             shard_id := extractBits v 42 (some 10)
             sequence := extractBits v 52 none
             binary := binary v }

/-- Bool value of the regex test `/^[\d]{17,22}$/.test(s)` (line 91):
17 to 22 ASCII digits. -/
def digitsShape (s : List Char) : Bool :=
  decide (17 ≤ s.length) && decide (s.length ≤ 22) && s.all Char.isDigit

/-- Model of `Snowflake.isValid` (src/index.ts lines 90-100): `false`
unless the shape test passes, then the result of attempting `parse` with
the default epoch, a thrown error converted to `false`. -/
def isValid (s : List Char) (st : State) : Bool :=
  if !digitsShape s then false else (parse s none st).isSome

/-- State of the statics after `n` successive `generate` calls with
fixed arguments. -/
def stateAfter (timestamp shard_id epoch : ℤ) (st : State) : ℕ → State
  | 0 => st
  | n + 1 => (generate timestamp shard_id epoch
      (stateAfter timestamp shard_id epoch st n)).2

/-- Value returned by the `(n+1)`-st of successive `generate` calls with
fixed arguments. -/
def callVal (timestamp shard_id epoch : ℤ) (st : State) (n : ℕ) : Option ℤ :=
  (generate timestamp shard_id epoch (stateAfter timestamp shard_id epoch st n)).1

/-- Low 12-bit field of a (non-negative) encoded value: the sequence
slot of the layout. -/
def seqField (v : ℤ) : ℤ := v % 4096

/-- Bits 12 to 21 of a (non-negative) encoded value: the shard slot of
the layout. -/
def shardField (v : ℤ) : ℤ := (v / 4096) % 1024

end Snowflake

/-! ### Positional digit arithmetic -/

theorem char_toNat_ofNat (n : ℕ) (h : n.isValidChar) : (Char.ofNat n).toNat = n := by
  rw [Char.ofNat, dif_pos h]; rfl

theorem valNat_foldl (b : ℕ) (l : List ℕ) (a : ℕ) :
    l.foldl (fun x d => b * x + d) a = a * b ^ l.length + valNat b l := by
  induction l generalizing a with
  | nil => simp [valNat]
  | cons d t ih =>
    have hv : valNat b (d :: t) = d * b ^ t.length + valNat b t := by
      simp only [valNat, List.foldl_cons]
      have := ih (b * 0 + d)
      simpa using this
    simp only [List.foldl_cons, List.length_cons, hv]
    rw [ih (b * a + d), pow_succ]
    ring

theorem valNat_cons (b d : ℕ) (t : List ℕ) :
    valNat b (d :: t) = d * b ^ t.length + valNat b t := by
  simp only [valNat, List.foldl_cons]
  simpa using valNat_foldl b t (b * 0 + d)

theorem valNat_append (b : ℕ) (l₁ l₂ : List ℕ) :
    valNat b (l₁ ++ l₂) = valNat b l₁ * b ^ l₂.length + valNat b l₂ := by
  simp only [valNat, List.foldl_append]
  exact valNat_foldl b l₂ _

theorem valNat_lt (b : ℕ) (l : List ℕ) (h : ∀ d ∈ l, d < b) :
    valNat b l < b ^ l.length := by
  induction l with
  | nil => simp [valNat]
  | cons d t ih =>
    rw [valNat_cons, List.length_cons, pow_succ]
    have h1 : valNat b t < b ^ t.length := ih fun d hd => h d (by simp [hd])
    have h2 : d < b := h d (by simp)
    have h3 : d * b ^ t.length + valNat b t < (d + 1) * b ^ t.length := by
      have he : (d + 1) * b ^ t.length = d * b ^ t.length + b ^ t.length := by ring
      omega
    have h4 : (d + 1) * b ^ t.length ≤ b * b ^ t.length :=
      Nat.mul_le_mul_right _ (by omega)
    calc d * b ^ t.length + valNat b t < (d + 1) * b ^ t.length := h3
    _ ≤ b * b ^ t.length := h4
    _ = b ^ t.length * b := by ring

theorem digitsRevFuel_val (b : ℕ) (hb : 2 ≤ b) :
    ∀ fuel n, n ≤ fuel → valNat b (digitsRevFuel b fuel n).reverse = n := by
  intro fuel
  induction fuel with
  | zero =>
    intro n h
    have : n = 0 := by omega
    simp [this, digitsRevFuel, valNat]
  | succ f ih =>
    intro n h
    by_cases h0 : n = 0
    · simp [h0, digitsRevFuel, valNat]
    · have hdiv : n / b ≤ f := by
        have hlt : n / b < n := Nat.div_lt_self (Nat.pos_of_ne_zero h0) (by omega)
        omega
      simp only [digitsRevFuel, if_neg h0, List.reverse_cons]
      rw [valNat_append, ih _ hdiv]
      have hdm := Nat.div_add_mod n b
      have hcomm : n / b * b = b * (n / b) := Nat.mul_comm _ _
      simp only [valNat, List.foldl_cons, List.foldl_nil, List.length_cons,
        List.length_nil, pow_one, Nat.mul_zero, Nat.zero_add]
      omega

theorem digitsRevFuel_digit_lt (b : ℕ) (hb : 2 ≤ b) :
    ∀ fuel n d, d ∈ digitsRevFuel b fuel n → d < b := by
  intro fuel
  induction fuel with
  | zero => intro n d hd; simp [digitsRevFuel] at hd
  | succ f ih =>
    intro n d hd
    by_cases h0 : n = 0
    · simp [h0, digitsRevFuel] at hd
    · simp only [digitsRevFuel, if_neg h0, List.mem_cons] at hd
      rcases hd with h | h
      · subst h; exact Nat.mod_lt _ (by omega)
      · exact ih _ _ h

theorem digitsRevFuel_length (b : ℕ) (hb : 2 ≤ b) :
    ∀ fuel n k, n ≤ fuel → n < b ^ k → (digitsRevFuel b fuel n).length ≤ k := by
  intro fuel
  induction fuel with
  | zero => intro n k _ _; simp [digitsRevFuel]
  | succ f ih =>
    intro n k hn hk
    by_cases h0 : n = 0
    · simp [h0, digitsRevFuel]
    · simp only [digitsRevFuel, if_neg h0, List.length_cons]
      cases k with
      | zero =>
        simp only [pow_zero] at hk
        omega
      | succ k =>
        have h1 : n / b < b ^ k := by
          rw [Nat.div_lt_iff_lt_mul (show 0 < b by omega)]
          calc n < b ^ (k + 1) := hk
          _ = b ^ k * b := pow_succ b k
        have h2 : n / b ≤ f := by
          have hlt : n / b < n := Nat.div_lt_self (Nat.pos_of_ne_zero h0) (by omega)
          omega
        have := ih (n / b) k h2 h1
        omega

/-! ### Character-level facts about the digit strings -/

theorem digitChar_toNat (d : ℕ) (h : d < 10) : (digitChar d).toNat = 48 + d := by
  simp only [digitChar, if_pos h]
  exact char_toNat_ofNat _ (Or.inl (by omega))

theorem charDigitVal_digitChar (d : ℕ) (h : d < 10) :
    charDigitVal (digitChar d) = d := by
  simp only [charDigitVal, digitChar_toNat d h]
  rw [if_neg (by omega), if_neg (by omega)]
  omega

theorem baseVal_eq_valNat (b : ℕ) (l : List Char) :
    baseVal b l = valNat b (l.map charDigitVal) := by
  simp [baseVal, valNat, List.foldl_map]

theorem natToBase_ne_nil (b n : ℕ) : natToBase b n ≠ [] := by
  by_cases h0 : n = 0
  · simp [natToBase, h0]
  · obtain ⟨m, rfl⟩ : ∃ m, n = m + 1 := ⟨n - 1, by omega⟩
    simp [natToBase, h0, digitsRev, digitsRevFuel]

theorem baseVal_natToBase (b n : ℕ) (hb : 2 ≤ b) (hb10 : b ≤ 10) :
    baseVal b (natToBase b n) = n := by
  by_cases h0 : n = 0
  · subst h0
    have h1 : charDigitVal '0' = 0 := by decide
    simp [natToBase, baseVal, h1]
  · simp only [natToBase, if_neg h0, baseVal_eq_valNat, List.map_map]
    have hmem : ∀ d ∈ (digitsRev b n).reverse, (charDigitVal ∘ digitChar) d = d := by
      intro d hd
      have hd' : d ∈ digitsRev b n := List.mem_reverse.mp hd
      have hlt : d < b := digitsRevFuel_digit_lt b hb n n d hd'
      exact charDigitVal_digitChar d (by omega)
    rw [List.map_congr_left hmem]
    simp only [List.map_id']
    exact digitsRevFuel_val b hb n n le_rfl

theorem natToBase_code (b n : ℕ) (hb : 2 ≤ b) (hb10 : b ≤ 10) :
    ∀ c ∈ natToBase b n, 48 ≤ c.toNat ∧ c.toNat < 48 + b := by
  intro c hc
  by_cases h0 : n = 0
  · subst h0
    simp [natToBase] at hc
    subst hc
    have h1 : ('0' : Char).toNat = 48 := by decide
    omega
  · simp only [natToBase, if_neg h0, List.mem_map] at hc
    obtain ⟨d, hd, rfl⟩ := hc
    have hlt : d < b := digitsRevFuel_digit_lt b hb n n d (List.mem_reverse.mp hd)
    rw [digitChar_toNat d (by omega)]
    omega

theorem natToBase_length_le (b n k : ℕ) (hb : 2 ≤ b) (hk : 1 ≤ k)
    (h : n < b ^ k) : (natToBase b n).length ≤ k := by
  by_cases h0 : n = 0
  · simp [natToBase, h0]; omega
  · simp only [natToBase, if_neg h0, List.length_map, List.length_reverse]
    exact digitsRevFuel_length b hb n n k le_rfl h

/-! ### Character classes -/

theorem jsWhitespace_eq_false (c : Char) (h1 : 43 ≤ c.toNat) (h2 : c.toNat ≤ 57) :
    jsWhitespace c = false := by
  have hnot : ¬ (jsWhitespace c = true) := by
    simp only [jsWhitespace, Bool.or_eq_true, Bool.and_eq_true, decide_eq_true_eq]
    push_neg
    omega
  simpa using hnot

theorem ne_char_of_code (c d : Char) (k : ℕ) (hd : d.toNat = k)
    (h : c.toNat ≠ k) : c ≠ d := by
  intro hc
  rw [hc, hd] at h
  exact h rfl

theorem isDigit_code (c : Char) (h : c.isDigit = true) :
    48 ≤ c.toNat ∧ c.toNat ≤ 57 := by
  simp only [Char.isDigit, UInt32.le_def, BitVec.le_def, Bool.and_eq_true,
    decide_eq_true_eq] at h
  exact h

theorem isDigit_of_code (c : Char) (h1 : 48 ≤ c.toNat) (h2 : c.toNat ≤ 57) :
    c.isDigit = true := by
  simp only [Char.isDigit, UInt32.le_def, BitVec.le_def, Bool.and_eq_true,
    decide_eq_true_eq]
  exact ⟨h1, h2⟩

theorem isBaseDigit_of_code (b : ℕ) (c : Char) (hb : b ≤ 10)
    (h1 : 48 ≤ c.toNat) (h2 : c.toNat < 48 + b) : isBaseDigit b c = true := by
  simp only [isBaseDigit, Bool.or_eq_true, Bool.and_eq_true, decide_eq_true_eq]
  left
  omega

theorem isBaseDigit_code (b : ℕ) (c : Char) (hb : b ≤ 10)
    (h : isBaseDigit b c = true) : 48 ≤ c.toNat ∧ c.toNat < 48 + b := by
  simp only [isBaseDigit, Bool.or_eq_true, Bool.and_eq_true, decide_eq_true_eq] at h
  omega

/-! ### parseInt and StringToBigInt on digit strings -/

theorem dropWhile_eq_self_of (p : Char → Bool) (l : List Char)
    (h : ∀ c ∈ l, p c = false) : l.dropWhile p = l := by
  cases l with
  | nil => rfl
  | cons c t => simp [List.dropWhile_cons, h c (by simp)]

theorem trimWS_eq_self (l : List Char) (h : ∀ c ∈ l, jsWhitespace c = false) :
    trimWS l = l := by
  unfold trimWS
  rw [dropWhile_eq_self_of _ _ h, dropWhile_eq_self_of, List.reverse_reverse]
  intro c hc
  exact h c (List.mem_reverse.mp hc)

theorem signSplit_no_sign (c : Char) (t : List Char)
    (h1 : 46 ≤ c.toNat) (h2 : c.toNat ≤ 57) : signSplit (c :: t) = (1, c :: t) := by
  have hm : c ≠ '-' := ne_char_of_code c '-' 45 (by decide) (by omega)
  have hp : c ≠ '+' := ne_char_of_code c '+' 43 (by decide) (by omega)
  simp [signSplit, hm, hp]

theorem roundToDouble_eq_self (n : ℕ) (h : n < 2 ^ 53) : roundToDouble n = n := by
  rw [roundToDouble, if_pos h]

theorem parseIntBase2_digits (l : List Char) (hne : l ≠ [])
    (h : ∀ c ∈ l, 48 ≤ c.toNat ∧ c.toNat < 50) :
    parseIntBase2 l = some (roundToDouble (baseVal 2 l)) := by
  obtain ⟨c, t, rfl⟩ := List.exists_cons_of_ne_nil hne
  have hc := h c (by simp)
  simp only [parseIntBase2]
  rw [dropWhile_eq_self_of _ _ fun x hx =>
    jsWhitespace_eq_false x (by have := h x hx; omega) (by have := h x hx; omega)]
  rw [signSplit_no_sign c t (by omega) (by omega)]
  rw [List.takeWhile_eq_self_iff.mpr fun x hx =>
    isBaseDigit_of_code 2 x (by omega) (h x hx).1 (h x hx).2]
  simp

theorem parseIntBase2_digits_exact (l : List Char) (hne : l ≠ [])
    (h : ∀ c ∈ l, 48 ≤ c.toNat ∧ c.toNat < 50) (hbound : baseVal 2 l < 2 ^ 53) :
    parseIntBase2 l = some (baseVal 2 l) := by
  rw [parseIntBase2_digits l hne h, roundToDouble_eq_self _ hbound]

theorem strToBigInt_digits (l : List Char) (hne : l ≠ [])
    (h : ∀ c ∈ l, c.isDigit = true) :
    strToBigInt l = some (baseVal 10 l) := by
  obtain ⟨c, t, rfl⟩ := List.exists_cons_of_ne_nil hne
  have hcode : ∀ x ∈ c :: t, 48 ≤ x.toNat ∧ x.toNat ≤ 57 :=
    fun x hx => isDigit_code x (h x hx)
  have hc := hcode c (by simp)
  simp only [strToBigInt]
  rw [trimWS_eq_self _ fun x hx =>
    jsWhitespace_eq_false x (by have := hcode x hx; omega) (hcode x hx).2]
  have hnd : nonDecSplit (c :: t) = none := by
    cases t with
    | nil => rfl
    | cons c1 r =>
      have hc1 := hcode c1 (by simp)
      have hb : c1 ≠ 'b' := ne_char_of_code c1 'b' 98 (by decide) (by omega)
      have hB : c1 ≠ 'B' := ne_char_of_code c1 'B' 66 (by decide) (by omega)
      have ho : c1 ≠ 'o' := ne_char_of_code c1 'o' 111 (by decide) (by omega)
      have hO : c1 ≠ 'O' := ne_char_of_code c1 'O' 79 (by decide) (by omega)
      have hx : c1 ≠ 'x' := ne_char_of_code c1 'x' 120 (by decide) (by omega)
      have hX : c1 ≠ 'X' := ne_char_of_code c1 'X' 88 (by decide) (by omega)
      simp [nonDecSplit, hb, hB, ho, hO, hx, hX]
  rw [hnd]
  rw [signSplit_no_sign c t (by omega) (by omega)]
  have hall : (c :: t).all (isBaseDigit 10) = true := by
    rw [List.all_eq_true]
    intro x hx
    exact isBaseDigit_of_code 10 x (by omega) (hcode x hx).1 (by have := hcode x hx; omega)
  simp [baseNat?, hall]

theorem strToBigInt_natToBase (n : ℕ) :
    strToBigInt (natToBase 10 n) = some n := by
  rw [strToBigInt_digits _ (natToBase_ne_nil 10 n) fun c hc => ?_, baseVal_natToBase 10 n (by norm_num) le_rfl]
  have := natToBase_code 10 n (by norm_num) le_rfl c hc
  exact isDigit_of_code c this.1 (by omega)

theorem strToBigInt_intToBase (v : ℤ) (h : 0 ≤ v) :
    strToBigInt (intToBase 10 v) = some v := by
  rw [intToBase, if_neg (by omega)]
  rw [strToBigInt_natToBase]
  simp [Int.toNat_of_nonneg h]

/-! ### The 64-bit binary string -/

theorem baseVal_append (b : ℕ) (l₁ l₂ : List Char) :
    baseVal b (l₁ ++ l₂) = baseVal b l₁ * b ^ l₂.length + baseVal b l₂ := by
  rw [baseVal_eq_valNat, List.map_append, valNat_append,
    ← baseVal_eq_valNat, ← baseVal_eq_valNat, List.length_map]

theorem baseVal_lt (b : ℕ) (l : List Char) (h : ∀ c ∈ l, charDigitVal c < b) :
    baseVal b l < b ^ l.length := by
  rw [baseVal_eq_valNat]
  have := valNat_lt b (l.map charDigitVal) ?_
  · simpa using this
  · intro d hd
    obtain ⟨c, hc, rfl⟩ := List.mem_map.mp hd
    exact h c hc

theorem charDigitVal_of_code (c : Char) (h1 : 48 ≤ c.toNat) (h2 : c.toNat ≤ 57) :
    charDigitVal c = c.toNat - 48 := by
  rw [charDigitVal, if_neg (by omega), if_neg (by omega)]

theorem baseVal_zero_pad (b k : ℕ) (l : List Char) :
    baseVal b (List.replicate k '0' ++ l) = baseVal b l := by
  rw [baseVal_append]
  have h1 : baseVal b (List.replicate k '0') = 0 := by
    induction k with
    | zero => rfl
    | succ k ih =>
      rw [List.replicate_succ, baseVal_eq_valNat, List.map_cons, valNat_cons]
      rw [baseVal_eq_valNat] at ih
      rw [ih]
      have : charDigitVal '0' = 0 := by decide
      simp [this]
  rw [h1]
  simp

namespace Snowflake

theorem binary_nonneg (v : ℤ) (h : 0 ≤ v) :
    binary v =
      if (natToBase 2 v.toNat).length < 64 then
        List.replicate (64 - (natToBase 2 v.toNat).length) '0' ++ natToBase 2 v.toNat
      else natToBase 2 v.toNat := by
  simp only [binary, intToBase, if_neg (show ¬v < 0 by omega)]

theorem binary_code (v : ℤ) (h : 0 ≤ v) :
    ∀ c ∈ binary v, 48 ≤ c.toNat ∧ c.toNat < 50 := by
  intro c hc
  rw [binary_nonneg v h] at hc
  have hbase : c ∈ natToBase 2 v.toNat → 48 ≤ c.toNat ∧ c.toNat < 50 :=
    fun hm => natToBase_code 2 v.toNat (by norm_num) (by norm_num) c hm
  by_cases hl : (natToBase 2 v.toNat).length < 64
  · rw [if_pos hl] at hc
    rcases List.mem_append.mp hc with h1 | h1
    · have := List.eq_of_mem_replicate h1
      subst this
      have : ('0' : Char).toNat = 48 := by decide
      omega
    · exact hbase h1
  · rw [if_neg hl] at hc
    exact hbase hc

theorem binary_length (v : ℤ) (h0 : 0 ≤ v) (h64 : v < 2 ^ 64) :
    (binary v).length = 64 := by
  have hlen : (natToBase 2 v.toNat).length ≤ 64 :=
    natToBase_length_le 2 v.toNat 64 (by norm_num) (by norm_num) (by omega)
  rw [binary_nonneg v h0]
  by_cases hl : (natToBase 2 v.toNat).length < 64
  · rw [if_pos hl]
    simp only [List.length_append, List.length_replicate]
    omega
  · rw [if_neg hl]
    omega

theorem baseVal_binary (v : ℤ) (h : 0 ≤ v) :
    baseVal 2 (binary v) = v.toNat := by
  rw [binary_nonneg v h]
  by_cases hl : (natToBase 2 v.toNat).length < 64
  · rw [if_pos hl, baseVal_zero_pad, baseVal_natToBase 2 _ (by norm_num) (by norm_num)]
  · rw [if_neg hl, baseVal_natToBase 2 _ (by norm_num) (by norm_num)]

end Snowflake

theorem baseVal_extract (l : List Char) (start len : ℕ)
    (hcode : ∀ c ∈ l, 48 ≤ c.toNat ∧ c.toNat < 50)
    (hlen : start + len ≤ l.length) :
    baseVal 2 ((l.drop start).take len) =
      baseVal 2 l / 2 ^ (l.length - start - len) % 2 ^ len := by
  have hdigit : ∀ c ∈ l, charDigitVal c < 2 := by
    intro c hc
    have := hcode c hc
    rw [charDigitVal_of_code c this.1 (by omega)]
    omega
  have hsplitM := List.take_append_drop len (l.drop start)
  have hsplitA := List.take_append_drop start l
  set A := l.take start with hA
  set M := (l.drop start).take len with hM
  set C := (l.drop start).drop len with hC
  have hlenA : A.length = start := List.length_take_of_le (by omega)
  have hlenM : M.length = len := by
    rw [hM, List.length_take, List.length_drop]
    omega
  have hlenC : C.length = l.length - start - len := by
    rw [hC, List.length_drop, List.length_drop]
  have hdecomp : l = A ++ (M ++ C) := by
    rw [hsplitM, hsplitA]
  have hvalue : baseVal 2 l =
      (baseVal 2 A * 2 ^ len + baseVal 2 M) * 2 ^ C.length + baseVal 2 C := by
    conv_lhs => rw [hdecomp]
    rw [baseVal_append, baseVal_append, List.length_append, hlenM, pow_add]
    ring
  have hrange : ∀ c ∈ M, c ∈ l := by
    intro c hc
    exact List.mem_of_mem_drop (List.mem_of_mem_take (hM ▸ hc))
  have hrangeC : ∀ c ∈ C, c ∈ l := by
    intro c hc
    exact List.mem_of_mem_drop (List.mem_of_mem_drop (hC ▸ hc))
  have hltM : baseVal 2 M < 2 ^ len := by
    have := baseVal_lt 2 M fun c hc => hdigit c (hrange c hc)
    rwa [hlenM] at this
  have hltC : baseVal 2 C < 2 ^ C.length :=
    baseVal_lt 2 C fun c hc => hdigit c (hrangeC c hc)
  rw [hvalue, hlenC.symm]
  have hQ : 0 < 2 ^ C.length := Nat.pos_pow_of_pos _ (by norm_num)
  have hdiv : ((baseVal 2 A * 2 ^ len + baseVal 2 M) * 2 ^ C.length + baseVal 2 C) /
      2 ^ C.length = baseVal 2 A * 2 ^ len + baseVal 2 M := by
    rw [Nat.add_comm, Nat.add_mul_div_right _ _ hQ, Nat.div_eq_of_lt hltC]
    omega
  rw [hdiv, Nat.add_comm (baseVal 2 A * 2 ^ len), Nat.add_mul_mod_self_right,
    Nat.mod_eq_of_lt hltM]

/-! ### BigInt arithmetic bridges -/

theorem shl_int (m : ℤ) (n : ℕ) : m <<< (n : ℤ) = m * 2 ^ n := by
  have := Int.shiftLeft_eq_mul_pow m n
  exact_mod_cast this

theorem shr_int (v : ℤ) (n : ℕ) : v >>> n = v / 2 ^ n := by
  have := Int.shiftRight_eq_div_pow v n
  exact_mod_cast this

theorem int_lor_natCast (a b : ℕ) : Int.lor (a : ℤ) (b : ℤ) = ((a ||| b : ℕ) : ℤ) :=
  rfl

theorem nat_encode_or (D S Q : ℕ) (hS : S < 1024) (hQ : Q < 4096) :
    (D * 2 ^ 22 ||| S * 2 ^ 12) ||| Q = D * 2 ^ 22 + S * 2 ^ 12 + Q := by
  have h1 : S * 2 ^ 12 < 2 ^ 22 := by omega
  have e1 : D * 2 ^ 22 ||| S * 2 ^ 12 = D * 2 ^ 22 + S * 2 ^ 12 := by
    calc D * 2 ^ 22 ||| S * 2 ^ 12 = 2 ^ 22 * D ||| S * 2 ^ 12 := by rw [Nat.mul_comm]
    _ = 2 ^ 22 * D + S * 2 ^ 12 := (Nat.mul_add_lt_is_or h1 D).symm
    _ = D * 2 ^ 22 + S * 2 ^ 12 := by ring
  have h2 : Q < 2 ^ 12 := by omega
  rw [e1]
  calc D * 2 ^ 22 + S * 2 ^ 12 ||| Q
      = 2 ^ 12 * (2 ^ 10 * D + S) ||| Q := by
        rw [show D * 2 ^ 22 + S * 2 ^ 12 = 2 ^ 12 * (2 ^ 10 * D + S) from by ring]
  _ = 2 ^ 12 * (2 ^ 10 * D + S) + Q := (Nat.mul_add_lt_is_or h2 _).symm
  _ = D * 2 ^ 22 + S * 2 ^ 12 + Q := by ring

namespace Snowflake

theorem generateVal_eq (t s e q : ℤ) (hd : 0 ≤ t - e) (hs : 0 ≤ s) (hq : 0 ≤ q) :
    generateVal t s e q = (t - e) * 2 ^ 22 + s % 1024 * 2 ^ 12 + q % 4096 := by
  unfold generateVal
  rw [Int.tmod_eq_emod hs (by norm_num), Int.tmod_eq_emod hq (by norm_num)]
  rw [show (t - e) <<< (22 : ℤ) = (t - e) * 2 ^ 22 from shl_int (t - e) 22,
    show (s % 1024) <<< (12 : ℤ) = s % 1024 * 2 ^ 12 from shl_int (s % 1024) 12]
  obtain ⟨D, hD⟩ := Int.eq_ofNat_of_zero_le hd
  obtain ⟨S, hS⟩ := Int.eq_ofNat_of_zero_le (Int.emod_nonneg s (show (1024 : ℤ) ≠ 0 by norm_num))
  obtain ⟨Q, hQ⟩ := Int.eq_ofNat_of_zero_le (Int.emod_nonneg q (show (4096 : ℤ) ≠ 0 by norm_num))
  have hSlt : S < 1024 := by
    have := Int.emod_lt_of_pos s (show (0 : ℤ) < 1024 by norm_num)
    omega
  have hQlt : Q < 4096 := by
    have := Int.emod_lt_of_pos q (show (0 : ℤ) < 4096 by norm_num)
    omega
  rw [hD, hS, hQ]
  rw [show ((D : ℤ) * 2 ^ 22) = ((D * 2 ^ 22 : ℕ) : ℤ) from by push_cast; ring]
  rw [show ((S : ℤ) * 2 ^ 12) = ((S * 2 ^ 12 : ℕ) : ℤ) from by push_cast; ring]
  rw [int_lor_natCast, int_lor_natCast, nat_encode_or D S Q hSlt hQlt]
  push_cast
  ring

theorem extractBits_some_eq (v : ℤ) (h0 : 0 ≤ v) (h64 : v < 2 ^ 64)
    (start l : ℕ) (hs : start < 64) (hl : 1 ≤ l) :
    extractBits v start (some l) =
      some (roundToDouble (baseVal 2 (((binary v).drop start).take l))) := by
  simp only [extractBits, if_pos (show l ≠ 0 by omega)]
  have hlenB : (binary v).length = 64 := binary_length v h0 h64
  have hne : ((binary v).drop start).take l ≠ [] := by
    have : (((binary v).drop start).take l).length = min l (64 - start) := by
      rw [List.length_take, List.length_drop, hlenB]
    intro hcon
    rw [hcon] at this
    simp at this
    omega
  rw [parseIntBase2_digits _ hne fun c hc =>
    binary_code v h0 c (List.mem_of_mem_drop (List.mem_of_mem_take hc))]

theorem extractBits_some_exact (v : ℤ) (h0 : 0 ≤ v) (h64 : v < 2 ^ 64)
    (start l : ℕ) (hs : start < 64) (hl : 1 ≤ l) (hl53 : l ≤ 53) :
    extractBits v start (some l) =
      some (baseVal 2 (((binary v).drop start).take l)) := by
  rw [extractBits_some_eq v h0 h64 start l hs hl]
  have hcode : ∀ c ∈ ((binary v).drop start).take l, charDigitVal c < 2 := by
    intro c hc
    have := binary_code v h0 c (List.mem_of_mem_drop (List.mem_of_mem_take hc))
    rw [charDigitVal_of_code c this.1 (by omega)]
    omega
  have hlt : baseVal 2 (((binary v).drop start).take l) <
      2 ^ (((binary v).drop start).take l).length := baseVal_lt 2 _ hcode
  have hlen : (((binary v).drop start).take l).length ≤ 53 := by
    rw [List.length_take]
    omega
  have hbound : baseVal 2 (((binary v).drop start).take l) < 2 ^ 53 :=
    lt_of_lt_of_le hlt (Nat.pow_le_pow_right (by norm_num) hlen)
  rw [roundToDouble_eq_self _ hbound]

theorem extractBits_some_arith (v : ℤ) (h0 : 0 ≤ v) (h64 : v < 2 ^ 64)
    (start l : ℕ) (hs : start < 64) (hl : 1 ≤ l) (hl53 : l ≤ 53)
    (hsl : start + l ≤ 64) :
    extractBits v start (some l) =
      some ((v.toNat / 2 ^ (64 - start - l) % 2 ^ l : ℕ)) := by
  rw [extractBits_some_exact v h0 h64 start l hs hl hl53]
  have := baseVal_extract (binary v) start l (binary_code v h0)
    (by rw [binary_length v h0 h64]; omega)
  rw [this, baseVal_binary v h0, binary_length v h0 h64]

theorem extractBits_none_eq (v : ℤ) (h0 : 0 ≤ v) (h64 : v < 2 ^ 64)
    (start : ℕ) (hs : start < 64) :
    extractBits v start none =
      some (roundToDouble (baseVal 2 ((binary v).drop start))) := by
  simp only [extractBits]
  have hlenB : (binary v).length = 64 := binary_length v h0 h64
  have hne : (binary v).drop start ≠ [] := by
    intro hcon
    have := congrArg List.length hcon
    rw [List.length_drop, hlenB] at this
    simp at this
    omega
  rw [parseIntBase2_digits _ hne fun c hc =>
    binary_code v h0 c (List.mem_of_mem_drop hc)]

theorem extractBits_none_exact (v : ℤ) (h0 : 0 ≤ v) (h64 : v < 2 ^ 64)
    (start : ℕ) (hs : start < 64) (hs11 : 11 ≤ start) :
    extractBits v start none = some (baseVal 2 ((binary v).drop start)) := by
  rw [extractBits_none_eq v h0 h64 start hs]
  have hcode : ∀ c ∈ (binary v).drop start, charDigitVal c < 2 := by
    intro c hc
    have := binary_code v h0 c (List.mem_of_mem_drop hc)
    rw [charDigitVal_of_code c this.1 (by omega)]
    omega
  have hlt : baseVal 2 ((binary v).drop start) <
      2 ^ ((binary v).drop start).length := baseVal_lt 2 _ hcode
  have hlen : ((binary v).drop start).length ≤ 53 := by
    rw [List.length_drop, binary_length v h0 h64]
    omega
  have hbound : baseVal 2 ((binary v).drop start) < 2 ^ 53 :=
    lt_of_lt_of_le hlt (Nat.pow_le_pow_right (by norm_num) hlen)
  rw [roundToDouble_eq_self _ hbound]

theorem extractBits_none_arith (v : ℤ) (h0 : 0 ≤ v) (h64 : v < 2 ^ 64)
    (start : ℕ) (hs : start < 64) (hs11 : 11 ≤ start) :
    extractBits v start none = some ((v.toNat % 2 ^ (64 - start) : ℕ)) := by
  rw [extractBits_none_exact v h0 h64 start hs hs11]
  have hlenB : (binary v).length = 64 := binary_length v h0 h64
  have htake : ((binary v).drop start).take (64 - start) = (binary v).drop start := by
    apply List.take_of_length_le
    rw [List.length_drop, hlenB]
  have := baseVal_extract (binary v) start (64 - start) (binary_code v h0)
    (by rw [hlenB]; omega)
  rw [htake] at this
  rw [this, baseVal_binary v h0, hlenB]
  have hz : 64 - start - (64 - start) = 0 := by omega
  rw [hz, pow_zero, Nat.div_one]

end Snowflake

/-! ### Claim theorems -/

/-- C2: with epoch 0, timestamp 1 ms, shard id 1, and the process-wide
sequence counter equal to 1 (its initial value) at the call, `generate`
returns the string "4198401", and `parse("4198401", 0)` returns the
record with timestamp 1, shard_id 1, sequence 1. -/
theorem c2_concrete_example :
    (Snowflake.generateStr 1 1 0 Snowflake.initialState).1 = some "4198401".data ∧
    (Snowflake.parse "4198401".data (some 0) Snowflake.initialState).map
        (fun r => (r.timestamp, r.shard_id, r.sequence)) =
      some (some 1, some 1, some 1) := by
  constructor
  · decide
  · decide

/-- C5: width invariant of the binary materializer: for `0 ≤ x < 2 ^ 64`,
`binary x` is the base-2 representation left-padded with `'0'` characters
and has exactly 64 characters; a representation that is already 64 or
more characters long is returned as-is, without truncation. -/
theorem c5_binary_width (v : ℤ) :
    (0 ≤ v → v < 2 ^ 64 →
      Snowflake.binary v =
        List.replicate (64 - (intToBase 2 v).length) '0' ++ intToBase 2 v ∧
      (Snowflake.binary v).length = 64) ∧
    (64 ≤ (intToBase 2 v).length → Snowflake.binary v = intToBase 2 v) := by
  constructor
  · intro h0 h64
    have hint : intToBase 2 v = natToBase 2 v.toNat := by
      rw [intToBase, if_neg (by omega)]
    have hlen : (natToBase 2 v.toNat).length ≤ 64 :=
      natToBase_length_le 2 v.toNat 64 (by norm_num) (by norm_num) (by omega)
    constructor
    · rw [Snowflake.binary_nonneg v h0, hint]
      by_cases hl : (natToBase 2 v.toNat).length < 64
      · rw [if_pos hl]
      · rw [if_neg hl]
        have h64' : (natToBase 2 v.toNat).length = 64 := by omega
        rw [h64']
        simp
    · exact Snowflake.binary_length v h0 h64
  · intro hge
    simp only [Snowflake.binary]
    rw [if_neg (by omega)]

/-- C5 witness: at x = 5 the padded form and the 64-character width, and
at x = 2 ^ 64 (a 65-character representation) the as-is behaviour. -/
theorem c5_binary_width_witness :
    (Snowflake.binary 5 =
        List.replicate (64 - (intToBase 2 5).length) '0' ++ intToBase 2 5 ∧
      (Snowflake.binary 5).length = 64) ∧
    Snowflake.binary (2 ^ 64) = intToBase 2 (2 ^ 64) :=
  ⟨(c5_binary_width 5).1 (by decide) (by decide),
    (c5_binary_width (2 ^ 64)).2 (by decide)⟩

/-- C6 counterexample: the claim that `extractBits` returns the integer
value of the binary substring fails for substrings wider than 53 bits,
because `parseInt` returns a Number (a double): for the snowflake
`2 ^ 63 + 1`, whose 64-character binary string is `1`, 62 zeros, `1`,
`extractBits(v, 0)` returns the rounded double `2 ^ 63`, while the
substring `B[0, end)` has integer value `2 ^ 63 + 1`. -/
theorem c6_counterexample :
    Snowflake.extractBits (2 ^ 63 + 1) 0 none = some (2 ^ 63) ∧
    (baseVal 2 ((Snowflake.binary (2 ^ 63 + 1)).drop 0) : ℤ) = 2 ^ 63 + 1 ∧
    Snowflake.extractBits (2 ^ 63 + 1) 0 none ≠
      some ((baseVal 2 ((Snowflake.binary (2 ^ 63 + 1)).drop 0) : ℕ)) := by
  refine ⟨by decide, by decide, by decide⟩

/-- C6 amended: for a snowflake value whose binary string is the
64-character `B` (`0 ≤ v < 2 ^ 64`) and bit offsets counted from the
most significant bit, `extractBits v start (some l)` is the base-2
value of the substring `B[start, start+l)` rounded to the nearest
double, and `extractBits v start none` (length omitted) is the base-2
value of `B[start, end)` rounded to the nearest double — `parseInt`
returns a Number. The rounding is the identity whenever the substring
fits in 53 bits: for widths `l ≤ 53`, and for the omitted-length form
from `start ≥ 11` on (in particular for the shard and sequence fields
at offsets 42 and 52), the extractor returns the exact integer value
of the substring. -/
theorem c6_extract_bits (v : ℤ) (start l : ℕ) (h0 : 0 ≤ v) (h64 : v < 2 ^ 64)
    (hs : start < 64) (hl : 1 ≤ l) :
    Snowflake.extractBits v start (some l) =
      some (roundToDouble (baseVal 2 (((Snowflake.binary v).drop start).take l))) ∧
    Snowflake.extractBits v start none =
      some (roundToDouble (baseVal 2 ((Snowflake.binary v).drop start))) ∧
    (l ≤ 53 →
      Snowflake.extractBits v start (some l) =
        some (baseVal 2 (((Snowflake.binary v).drop start).take l))) ∧
    (11 ≤ start →
      Snowflake.extractBits v start none =
        some (baseVal 2 ((Snowflake.binary v).drop start))) :=
  ⟨Snowflake.extractBits_some_eq v h0 h64 start l hs hl,
    Snowflake.extractBits_none_eq v h0 h64 start hs,
    fun hl53 => Snowflake.extractBits_some_exact v h0 h64 start l hs hl hl53,
    fun hs11 => Snowflake.extractBits_none_exact v h0 h64 start hs hs11⟩

/-- C6 witness: all four forms at the concrete snowflake 4198401, offset
42 (the shard field) and width 10. -/
theorem c6_extract_bits_witness :
    Snowflake.extractBits 4198401 42 (some 10) =
      some (roundToDouble (baseVal 2 (((Snowflake.binary 4198401).drop 42).take 10))) ∧
    Snowflake.extractBits 4198401 42 none =
      some (roundToDouble (baseVal 2 ((Snowflake.binary 4198401).drop 42))) ∧
    Snowflake.extractBits 4198401 42 (some 10) =
      some (baseVal 2 (((Snowflake.binary 4198401).drop 42).take 10)) ∧
    Snowflake.extractBits 4198401 42 none =
      some (baseVal 2 ((Snowflake.binary 4198401).drop 42)) :=
  have h := c6_extract_bits 4198401 42 10 (by decide) (by decide) (by decide)
    (by decide)
  ⟨h.1, h.2.1, h.2.2.1 (by decide), h.2.2.2 (by decide)⟩

/-- C8: isValid is a total Boolean gate: it equals the conjunction of the
17-to-22-ASCII-digits shape test and the success of the parse attempt
with the default epoch (a thrown parse error becomes `false`; the
function itself is total and never raises), and the shape test holds
exactly for strings of 17 to 22 ASCII digits. -/
theorem c8_isValid_gate (s : List Char) (st : Snowflake.State) :
    Snowflake.isValid s st =
      (Snowflake.digitsShape s && (Snowflake.parse s none st).isSome) ∧
    (Snowflake.digitsShape s = true ↔
      17 ≤ s.length ∧ s.length ≤ 22 ∧ ∀ c ∈ s, c.isDigit = true) := by
  constructor
  · unfold Snowflake.isValid
    by_cases h : Snowflake.digitsShape s <;> simp [h]
  · simp [Snowflake.digitsShape, List.all_eq_true, and_assoc]

/-- C10: every string of 17 to 22 ASCII digits is accepted by isValid:
the big-integer conversion of a pure digit string always succeeds, so the
parse attempt behind the syntactic test never throws on such input. -/
theorem c10_digit_strings_valid (s : List Char) (h17 : 17 ≤ s.length)
    (h22 : s.length ≤ 22) (hd : ∀ c ∈ s, c.isDigit = true) :
    Snowflake.isValid s Snowflake.initialState = true := by
  have hne : s ≠ [] := by
    intro h
    rw [h] at h17
    simp at h17
  have hshape : Snowflake.digitsShape s = true := by
    simp only [Snowflake.digitsShape, Bool.and_eq_true, decide_eq_true_eq,
      List.all_eq_true]
    exact ⟨⟨h17, h22⟩, hd⟩
  have hstr := strToBigInt_digits s hne hd
  unfold Snowflake.isValid
  rw [hshape]
  simp [Snowflake.parse, hstr, dateValueOf, maxDateMs, Snowflake.initialState]

/-- C10 witness: a concrete 17-digit string is valid. -/
theorem c10_digit_strings_valid_witness :
    Snowflake.isValid "12345678901234567".data Snowflake.initialState = true :=
  c10_digit_strings_valid "12345678901234567".data (by decide) (by decide)
    (by decide)

/-- C7 counterexample: the claim "parse throws exactly when the string is
rejected by the big-integer conversion" fails as stated: with the epoch
argument 8640000000000001 (one past the valid Date range),
`parse("0", 8640000000000001)` throws — `new Date(epoch).valueOf()` is
NaN and `BigInt(NaN)` raises — even though `BigInt("0")` converts. -/
theorem c7_counterexample :
    strToBigInt "0".data = some 0 ∧
    Snowflake.parse "0".data (some 8640000000000001) Snowflake.initialState =
      none := by
  constructor
  · decide
  · decide

/-- C7 amended: provided the epoch in use (the argument, or the default
from the statics when omitted) is a valid time value, `parse` throws
exactly when the snowflake string is rejected by the big-integer
conversion; every string the conversion accepts yields a record. -/
theorem c7_parse_raises_iff (s : List Char) (epoch : Option ℤ)
    (st : Snowflake.State) (hep : (epoch.getD st.EPOCH).natAbs ≤ maxDateMs) :
    (Snowflake.parse s epoch st).isSome = (strToBigInt s).isSome := by
  unfold Snowflake.parse
  cases h : strToBigInt s with
  | none => simp
  | some v => simp [dateValueOf, hep]

/-- C7 witness: a rejected string and an accepted one, both with the
default epoch of the initial statics. -/
theorem c7_parse_raises_iff_witness :
    (Snowflake.parse "12e".data none Snowflake.initialState).isSome =
      (strToBigInt "12e".data).isSome ∧
    (Snowflake.parse "7".data none Snowflake.initialState).isSome =
      (strToBigInt "7".data).isSome :=
  ⟨c7_parse_raises_iff "12e".data none Snowflake.initialState (by decide),
    c7_parse_raises_iff "7".data none Snowflake.initialState (by decide)⟩

/-- C9 counterexample: the claim "every call to generate increments the
counter by exactly one, regardless of the arguments" fails: a call whose
timestamp is outside the valid Date range throws at `BigInt(NaN)` on
line 64, before the `SEQUENCE++` on line 66, leaving the counter (and
the whole statics) unchanged. -/
theorem c9_counterexample :
    (Snowflake.generate 8640000000000001 1 0 Snowflake.initialState).1 = none ∧
    (Snowflake.generate 8640000000000001 1 0 Snowflake.initialState).2 =
      Snowflake.initialState ∧
    Snowflake.initialState.SEQUENCE = 1 := by
  refine ⟨by decide, by decide, by decide⟩

/-- C9 amended: every generate call whose timestamp and epoch are valid
time values increments the sequence counter by exactly one and leaves
the default epoch and shard id unchanged; the value it returns is
encoded from the counter's value before this call's increment, and (for
non-negative shard, delta and counter) its low 12-bit field is that
pre-increment counter value mod 4096. A call that throws during the
Date normalization leaves the counter unchanged. -/
theorem c9_generate_frame (t s e : ℤ) (st : Snowflake.State)
    (ht : t.natAbs ≤ maxDateMs) (he : e.natAbs ≤ maxDateMs) :
    Snowflake.generate t s e st =
      (some (Snowflake.generateVal t s e st.SEQUENCE),
        { st with SEQUENCE := st.SEQUENCE + 1 }) ∧
    (Snowflake.generate t s e st).2.EPOCH = st.EPOCH ∧
    (Snowflake.generate t s e st).2.SHARD_ID = st.SHARD_ID ∧
    (Snowflake.generate t s e st).2.SEQUENCE = st.SEQUENCE + 1 ∧
    (0 ≤ s → 0 ≤ t - e → 0 ≤ st.SEQUENCE →
      Snowflake.seqField (Snowflake.generateVal t s e st.SEQUENCE) =
        st.SEQUENCE % 4096) := by
  have hgen : Snowflake.generate t s e st =
      (some (Snowflake.generateVal t s e st.SEQUENCE),
        { st with SEQUENCE := st.SEQUENCE + 1 }) := by
    unfold Snowflake.generate
    simp [dateValueOf, ht, he]
  refine ⟨hgen, ?_, ?_, ?_, ?_⟩
  · rw [hgen]
  · rw [hgen]
  · rw [hgen]
  · intro hs hd hq
    rw [Snowflake.generateVal_eq t s e st.SEQUENCE hd hs hq]
    unfold Snowflake.seqField
    have h1 : 0 ≤ s % 1024 := Int.emod_nonneg s (by norm_num)
    have h2 : s % 1024 < 1024 := Int.emod_lt_of_pos s (by norm_num)
    have h3 : 0 ≤ st.SEQUENCE % 4096 := Int.emod_nonneg _ (by norm_num)
    have h4 : st.SEQUENCE % 4096 < 4096 := Int.emod_lt_of_pos _ (by norm_num)
    omega

/-- C9 witness: the frame equation and the sequence field at a concrete
call. -/
theorem c9_generate_frame_witness :
    Snowflake.generate 5 2 0 Snowflake.initialState =
      (some (Snowflake.generateVal 5 2 0 Snowflake.initialState.SEQUENCE),
        { Snowflake.initialState with
            SEQUENCE := Snowflake.initialState.SEQUENCE + 1 }) ∧
    Snowflake.seqField
        (Snowflake.generateVal 5 2 0 Snowflake.initialState.SEQUENCE) =
      Snowflake.initialState.SEQUENCE % 4096 :=
  ⟨(c9_generate_frame 5 2 0 Snowflake.initialState (by decide) (by decide)).1,
    (c9_generate_frame 5 2 0 Snowflake.initialState (by decide)
      (by decide)).2.2.2.2 (by decide) (by decide) (by decide)⟩

theorem int_zero_lor (x : ℤ) : Int.lor 0 x = x := by
  cases x with
  | ofNat m =>
    show Int.ofNat (0 ||| m) = Int.ofNat m
    rw [Nat.zero_or]
  | negSucc m =>
    show Int.negSucc (Nat.ldiff m 0) = Int.negSucc m
    rw [Nat.ldiff, Nat.bitwise_zero_right]
    simp

theorem int_lor_zero (x : ℤ) : Int.lor x 0 = x := by
  cases x with
  | ofNat m =>
    show Int.ofNat (m ||| 0) = Int.ofNat m
    rw [Nat.or_zero]
  | negSucc m =>
    show Int.negSucc (Nat.ldiff m 0) = Int.negSucc m
    rw [Nat.ldiff, Nat.bitwise_zero_right]
    simp

/-- C3 counterexample: the claim "generate reduces the shard id modulo
1024, so the encoded shard field always lies in [0,1023]" fails for a
negative shard id: the JS `%` is a truncated remainder, so for shard id
-1 the value OR-ed in is `(-1) << 12 = -4096`, and the resulting
encoding (here with delta 0 and sequence counter 0) is the negative
value -4096 — not the encoding 4190208 that shard `-1 mod 1024 = 1023`
would produce. -/
theorem c3_counterexample :
    Snowflake.generateVal 0 (-1) 0 0 = -4096 ∧
    Snowflake.generateVal 0 1023 0 0 = 1023 * 4096 ∧
    Snowflake.generateVal 0 (-1) 0 0 ≠ Snowflake.generateVal 0 1023 0 0 ∧
    Snowflake.generateVal 0 (-1) 0 0 < 0 := by
  have e1 : Snowflake.generateVal 0 (-1) 0 0 = -4096 := by
    have hb : Snowflake.generateVal 0 (-1) 0 0 =
        Int.lor (Int.lor ((0 - 0) <<< (22 : ℤ)) (Int.tmod (-1) 1024 <<< (12 : ℤ)))
          (Int.tmod 0 4096) := rfl
    rw [hb, show ((0 : ℤ) - 0) <<< (22 : ℤ) = 0 from by decide,
      show Int.tmod (-1) 1024 <<< (12 : ℤ) = -4096 from by decide,
      show Int.tmod (0 : ℤ) 4096 = 0 from by decide,
      int_zero_lor, int_lor_zero]
  have e2 : Snowflake.generateVal 0 1023 0 0 = 1023 * 4096 := by decide
  refine ⟨e1, e2, ?_, ?_⟩
  · rw [e1, e2]
    decide
  · rw [e1]
    decide

/-- C3 amended: for every non-negative integer shard id S, generate
reduces S modulo 1024 before encoding (the JS remainder agrees with the
mathematical mod for S ≥ 0), so the encoded shard field lies in
[0,1023]; no error is raised for out-of-range values, and a generate
call with shard id 1025 produces exactly the output of one with shard
id 1. For negative S the JS remainder is negative and the encoding is
not the encoding of S mod 1024 (the counterexample shows it can be a
negative value). -/
theorem c3_shard_wrap (t s e q : ℤ) (st : Snowflake.State)
    (hd : 0 ≤ t - e) (hs : 0 ≤ s) (hq : 0 ≤ q) :
    Snowflake.shardField (Snowflake.generateVal t s e q) = s % 1024 ∧
    0 ≤ s % 1024 ∧ s % 1024 < 1024 ∧
    Snowflake.generate t 1025 e st = Snowflake.generate t 1 e st := by
  have h1 : 0 ≤ s % 1024 := Int.emod_nonneg s (by norm_num)
  have h2 : s % 1024 < 1024 := Int.emod_lt_of_pos s (by norm_num)
  have h3 : 0 ≤ q % 4096 := Int.emod_nonneg q (by norm_num)
  have h4 : q % 4096 < 4096 := Int.emod_lt_of_pos q (by norm_num)
  refine ⟨?_, h1, h2, ?_⟩
  · rw [Snowflake.generateVal_eq t s e q hd hs hq]
    unfold Snowflake.shardField
    omega
  · have hval : ∀ a b x : ℤ, Snowflake.generateVal a 1025 b x =
        Snowflake.generateVal a 1 b x := by
      intro a b x
      unfold Snowflake.generateVal
      rw [show Int.tmod 1025 1024 = 1 from by decide,
        show Int.tmod 1 1024 = 1 from by decide]
    unfold Snowflake.generate
    cases dateValueOf t with
    | none => rfl
    | some a =>
      cases dateValueOf e with
      | none => rfl
      | some b => simp [hval]

/-- C3 witness: shard id 1025 wraps to field value 1 at a concrete call. -/
theorem c3_shard_wrap_witness :
    Snowflake.shardField (Snowflake.generateVal 7 1025 0 0) = 1025 % 1024 ∧
    0 ≤ (1025 : ℤ) % 1024 ∧ (1025 : ℤ) % 1024 < 1024 ∧
    Snowflake.generate 7 1025 0 Snowflake.initialState =
      Snowflake.generate 7 1 0 Snowflake.initialState :=
  c3_shard_wrap 7 1025 0 0 Snowflake.initialState (by decide) (by decide)
    (by decide)

theorem stateAfter_eq (t s e : ℤ) (st : Snowflake.State)
    (ht : t.natAbs ≤ maxDateMs) (he : e.natAbs ≤ maxDateMs) (n : ℕ) :
    Snowflake.stateAfter t s e st n =
      { st with SEQUENCE := st.SEQUENCE + n } := by
  obtain ⟨ep, sh, sq⟩ := st
  induction n with
  | zero => simp [Snowflake.stateAfter]
  | succ n ih =>
    show (Snowflake.generate t s e (Snowflake.stateAfter t s e _ n)).2 = _
    rw [ih]
    unfold Snowflake.generate
    simp only [dateValueOf, if_pos ht, if_pos he, Snowflake.State.mk.injEq]
    refine ⟨trivial, trivial, ?_⟩
    push_cast
    ring

/-- C4 counterexample: the claim "calling generate 4096 times from the
codec's initial process-wide sequence state yields sequence values
0, 1, ..., 4095" fails at the very first call: the initial counter is 1
(src/index.ts line 36), so the first call (here with timestamp, shard
and epoch all 0, making the whole encoded value the sequence field)
encodes sequence value 1, not 0. -/
theorem c4_counterexample :
    Snowflake.callVal 0 0 0 Snowflake.initialState 0 = some 1 ∧
    Snowflake.seqField 1 = 1 ∧ (1 : ℤ) ≠ 0 := by
  refine ⟨by decide, by decide, by decide⟩

/-- C4 amended: starting from the codec's initial state (sequence
counter = 1), the (n+1)-st generate call with fixed valid
timestamp/shard/epoch leaves the counter at 1 + (n+1) and encodes
sequence value (1+n) mod 4096: the first 4096 calls yield
1, 2, ..., 4095, 0 in order, and the 4097th call yields 1, not 0. -/
theorem c4_sequence_wrap (t s e : ℤ) (n : ℕ)
    (ht : t.natAbs ≤ maxDateMs) (he : e.natAbs ≤ maxDateMs)
    (hd : 0 ≤ t - e) (hs : 0 ≤ s) :
    (Snowflake.stateAfter t s e Snowflake.initialState n).SEQUENCE = 1 + n ∧
    Snowflake.callVal t s e Snowflake.initialState n =
      some (Snowflake.generateVal t s e (1 + n)) ∧
    (Snowflake.callVal t s e Snowflake.initialState n).map Snowflake.seqField =
      some ((1 + n) % 4096) := by
  have hst := stateAfter_eq t s e Snowflake.initialState ht he n
  have hseq : (Snowflake.stateAfter t s e Snowflake.initialState n).SEQUENCE =
      1 + n := by
    rw [hst]
    rfl
  have hcall : Snowflake.callVal t s e Snowflake.initialState n =
      some (Snowflake.generateVal t s e (1 + n)) := by
    unfold Snowflake.callVal
    unfold Snowflake.generate
    simp only [dateValueOf, if_pos ht, if_pos he]
    rw [hseq]
  refine ⟨hseq, hcall, ?_⟩
  rw [hcall]
  simp only [Option.map_some']
  apply Option.some_inj.mpr
  have hq : (0 : ℤ) ≤ 1 + n := by positivity
  rw [Snowflake.generateVal_eq t s e (1 + n) hd hs hq]
  unfold Snowflake.seqField
  have h1 : 0 ≤ s % 1024 := Int.emod_nonneg s (by norm_num)
  have h2 : s % 1024 < 1024 := Int.emod_lt_of_pos s (by norm_num)
  have h3 : 0 ≤ (1 + (n : ℤ)) % 4096 := Int.emod_nonneg _ (by norm_num)
  have h4 : (1 + (n : ℤ)) % 4096 < 4096 := Int.emod_lt_of_pos _ (by norm_num)
  omega

/-- C4 witness: the 4096th call from the initial state encodes sequence
value (1 + 4095) mod 4096 = 0. -/
theorem c4_sequence_wrap_witness :
    (Snowflake.stateAfter 0 0 0 Snowflake.initialState 4095).SEQUENCE =
      1 + (4095 : ℕ) ∧
    Snowflake.callVal 0 0 0 Snowflake.initialState 4095 =
      some (Snowflake.generateVal 0 0 0 (1 + (4095 : ℕ))) ∧
    (Snowflake.callVal 0 0 0 Snowflake.initialState 4095).map
        Snowflake.seqField =
      some ((1 + (4095 : ℕ)) % 4096) :=
  c4_sequence_wrap 0 0 0 4095 (by decide) (by decide) (by decide) (by decide)

/-- C1 counterexample: the claimed round trip
"parse(generate({timestamp:T, shard_id:S, epoch:E})) yields
{timestamp: T+E, ...}" fails at T = 1, E = 1, S = 0 with the sequence
counter forced to 0: generate encodes the delta T - E = 0, the whole
snowflake is "0", and parse (with the default epoch 0) recovers
timestamp 0, not T + E = 2. -/
theorem c1_counterexample :
    (Snowflake.generateStr 1 0 1
        { EPOCH := 0, SHARD_ID := 1, SEQUENCE := 0 }).1 = some "0".data ∧
    (Snowflake.parse "0".data none Snowflake.initialState).map
        (fun r => r.timestamp) = some (some 0) ∧
    (0 : ℤ) ≠ 1 + 1 := by
  refine ⟨by decide, by decide, by decide⟩

/-- C1 amended: for valid time values T and E with delta T - E
non-negative and below 2 ^ 42, shard id S in [0, 1023], and Q the value
of the sequence counter observed at the call taken mod 4096,
`parse(generate({timestamp: T, shard_id: S, epoch: E}))` with the
default epoch (0, the initial EPOCH) yields
`{timestamp: T - E, shard_id: S, sequence: Q}`: the timestamp field
recovers the encoded delta plus the parse-time epoch, not T + E. -/
theorem c1_roundtrip (t s e : ℤ) (st : Snowflake.State)
    (ht : t.natAbs ≤ maxDateMs) (he : e.natAbs ≤ maxDateMs)
    (hd : 0 ≤ t - e) (hd42 : t - e < 2 ^ 42)
    (hs : 0 ≤ s) (hs1023 : s ≤ 1023)
    (hq : 0 ≤ st.SEQUENCE) (hep : st.EPOCH = 0) :
    (Snowflake.generateStr t s e st).1 =
      some (intToBase 10 (Snowflake.generateVal t s e st.SEQUENCE)) ∧
    (Snowflake.parse (intToBase 10 (Snowflake.generateVal t s e st.SEQUENCE))
          none (Snowflake.generateStr t s e st).2).map
        (fun r => (r.timestamp, r.shard_id, r.sequence)) =
      some (some (t - e), some s, some (st.SEQUENCE % 4096)) := by
  set v := Snowflake.generateVal t s e st.SEQUENCE with hv
  have hmod : s % 1024 = s := Int.emod_eq_of_lt hs (by omega)
  have hq1 : 0 ≤ st.SEQUENCE % 4096 := Int.emod_nonneg _ (by norm_num)
  have hq2 : st.SEQUENCE % 4096 < 4096 := Int.emod_lt_of_pos _ (by norm_num)
  have hval : v = (t - e) * 2 ^ 22 + s * 2 ^ 12 + st.SEQUENCE % 4096 := by
    rw [hv, Snowflake.generateVal_eq t s e st.SEQUENCE hd hs hq, hmod]
  have hv0 : 0 ≤ v := by rw [hval]; positivity
  have hv64 : v < 2 ^ 64 := by
    rw [hval]
    have : (2 : ℤ) ^ 64 = 2 ^ 42 * 2 ^ 22 := by norm_num
    nlinarith [hd42, hs1023, hq2]
  have hstr : strToBigInt (intToBase 10 v) = some v := strToBigInt_intToBase v hv0
  have hstr1 : (Snowflake.generateStr t s e st).1 = some (intToBase 10 v) := by
    unfold Snowflake.generateStr Snowflake.generate
    simp only [dateValueOf, if_pos ht, if_pos he, Option.map_some']
  have hst2 : (Snowflake.generateStr t s e st).2 =
      { st with SEQUENCE := st.SEQUENCE + 1 } := by
    unfold Snowflake.generateStr Snowflake.generate
    simp only [dateValueOf, if_pos ht, if_pos he]
  refine ⟨hstr1, ?_⟩
  rw [hst2]
  have hparse : Snowflake.parse (intToBase 10 v) none
      { st with SEQUENCE := st.SEQUENCE + 1 } =
      some { timestamp := jsNumberOfBigInt ((v >>> (22 : ℕ)) + st.EPOCH)
             shard_id := Snowflake.extractBits v 42 (some 10)
             sequence := Snowflake.extractBits v 52 none
             binary := Snowflake.binary v } := by
    unfold Snowflake.parse
    rw [hstr]
    have hE : ({ st with SEQUENCE := st.SEQUENCE + 1 } : Snowflake.State).EPOCH =
        st.EPOCH := rfl
    simp only [Option.getD_none, hE, dateValueOf, hep]
    norm_num
  rw [hparse]
  simp only [Option.map_some']
  apply Option.some_inj.mpr
  have hts : jsNumberOfBigInt ((v >>> (22 : ℕ)) + st.EPOCH) = some (t - e) := by
    rw [shr_int v 22, hep, hval]
    have hdiv : ((t - e) * 2 ^ 22 + s * 2 ^ 12 + st.SEQUENCE % 4096) / 2 ^ 22 +
        0 = t - e := by
      have h12 : (0 : ℤ) ≤ s * 2 ^ 12 := by positivity
      omega
    rw [hdiv]
    unfold jsNumberOfBigInt
    rw [if_pos (by omega)]
  have hsh : Snowflake.extractBits v 42 (some 10) = some s := by
    rw [Snowflake.extractBits_some_arith v hv0 hv64 42 10 (by norm_num)
      (by norm_num) (by norm_num) (by norm_num)]
    apply Option.some_inj.mpr
    have hvnat : (v.toNat : ℤ) = v := Int.toNat_of_nonneg hv0
    omega
  have hsq : Snowflake.extractBits v 52 none = some (st.SEQUENCE % 4096) := by
    rw [Snowflake.extractBits_none_arith v hv0 hv64 52 (by norm_num) (by norm_num)]
    apply Option.some_inj.mpr
    have hvnat : (v.toNat : ℤ) = v := Int.toNat_of_nonneg hv0
    omega
  rw [hts, hsh, hsq]

/-- C1 witness: the concrete round trip at T = 1, E = 0, S = 1 from the
initial statics (counter 1): the snowflake "4198401" parses back to
timestamp 1, shard 1, sequence 1. -/
theorem c1_roundtrip_witness :
    (Snowflake.generateStr 1 1 0 Snowflake.initialState).1 =
      some (intToBase 10
        (Snowflake.generateVal 1 1 0 Snowflake.initialState.SEQUENCE)) ∧
    (Snowflake.parse
          (intToBase 10
            (Snowflake.generateVal 1 1 0 Snowflake.initialState.SEQUENCE))
          none (Snowflake.generateStr 1 1 0 Snowflake.initialState).2).map
        (fun r => (r.timestamp, r.shard_id, r.sequence)) =
      some (some (1 - 0), some 1, some (Snowflake.initialState.SEQUENCE % 4096)) :=
  c1_roundtrip 1 1 0 Snowflake.initialState (by decide) (by decide) (by decide)
    (by decide) (by decide) (by decide) (by decide) (by decide)

